import Mathlib

/-
Verification development for the mcp-server-runner repository.

The repository is the front-end of a desktop application that manages named
child-process servers through a Tauri invoke boundary.  The backend Process
Supervisor (Registry, Process Controller, Status Tracker, Output Buffer) is not
part of the reviewed sources; definitions for it below are modelled from the
specification and are marked as such.  Everything else is embedded directly
from the TypeScript sources (src/src/App.tsx, src/src/types/mcp.ts and the
form components).
-/

set_option autoImplicit false

namespace MCPRunner

/-- Embedded from src/src/App.tsx lines 14-21: the CommandStatus tagged union
mirrored from the backend contract. -/
inductive CommandStatus where
  | Idle
  | Starting
  | Running
  | Stopping
  | Killing
  | Finished (code : Option Int) (success : Bool)
  | Error (message : String)
deriving DecidableEq, Repr

/-- Modelled from the spec (§4.1, §4.2): the terminal statuses Idle, Finished
and Error, from which start and remove are allowed. -/
def isTerminal : CommandStatus → Bool
  | .Idle => true
  | .Finished _ _ => true
  | .Error _ => true
  | _ => false

/-- Embedded from src/src/App.tsx lines 172-175 (isActionLocked): the
transition states Starting, Stopping, Killing. -/
def isTransitional : CommandStatus → Bool
  | .Starting => true
  | .Stopping => true
  | .Killing => true
  | _ => false

/-- Modelled from the spec (§4.4): statuses in which the OS process may still
produce output (spawn requested through confirmed exit). -/
def isAlive : CommandStatus → Bool
  | .Starting => true
  | .Running => true
  | .Stopping => true
  | .Killing => true
  | _ => false

/-- The backend commands the toggle button dispatches. -/
inductive BackendCmd where
  | startCmd
  | stopCmd
deriving DecidableEq, Repr, BEq

/-- Embedded from src/src/App.tsx lines 282-296 (handleToggleCommand switch):
Idle/Finished/Error dispatch start_command, Running dispatches stop_command,
and the transition states Starting/Stopping/Killing are ignored. -/
def toggleTarget : CommandStatus → Option BackendCmd
  | .Idle => some .startCmd
  | .Finished _ _ => some .startCmd
  | .Error _ => some .startCmd
  | .Running => some .stopCmd
  | .Starting => none
  | .Stopping => none
  | .Killing => none

/-- Embedded from src/src/App.tsx lines 381-387: the guard in handleForceKill
that only lets force_kill_command be invoked while Running or Stopping
(an absent status blocks as well). -/
def forceKillGuardAllows : Option CommandStatus → Bool
  | some .Running => true
  | some .Stopping => true
  | _ => false

/-- Embedded from src/src/App.tsx lines 230-233 and 421-425: edit and remove
are allowed only when the current status is Idle, Finished or Error. -/
def editRemoveAllowed : CommandStatus → Bool
  | .Idle => true
  | .Finished _ _ => true
  | .Error _ => true
  | _ => false

/-- Embedded from src/src/App.tsx line 38: the grace period, in milliseconds,
before prompting for force kill. -/
def GRACEFUL_STOP_TIMEOUT : Nat := 5000

/-- Outcome of the grace-period timer callback: whether the force-kill prompt
was shown and whether the force-kill handler was invoked. -/
structure TimerFireOutcome where
  promptShown : Bool
  forceKillInvoked : Bool
deriving DecidableEq, Repr

/-- Embedded from src/src/App.tsx lines 333-355: the timer callback started
after a successful stop_command.  It re-fetches the fresh status; when the
command is still Stopping it prompts the user and calls handleForceKill only
when the user confirms; otherwise it does nothing. -/
def stopTimerFired (fresh : CommandStatus) (userConfirmed : Bool) : TimerFireOutcome :=
  match fresh with
  | .Stopping => { promptShown := true, forceKillInvoked := userConfirmed }
  | _ => { promptShown := false, forceKillInvoked := false }

/-- Embedded from src/src/App.tsx lines 327-356: the grace-period timer is
started exactly when the toggle dispatched stop_command. -/
def stopTimerStarted (s : CommandStatus) : Bool :=
  toggleTarget s == some .stopCmd

/-- Helper predicate on statuses used to state the timer theorems. -/
def isStopping : CommandStatus → Bool
  | .Stopping => true
  | _ => false

/-- Embedded from src/src/types/mcp.ts lines 1-6 (MCPServerConfig): one
configured server entry, env and port optional. -/
structure MCPServerConfig where
  command : String
  args : List String
  env : Option (List (String × String))
  port : Option Nat
deriving DecidableEq, Repr

/-- Embedded from src/src/types/mcp.ts lines 8-10 (Config): the full
configuration document, a map keyed by server id under the field mcpServers. -/
structure Config where
  mcpServers : List (String × MCPServerConfig)
deriving DecidableEq, Repr

/-- Embedded from src/src/types/mcp.ts lines 12-20 (MCPCommand). -/
structure MCPCommand where
  id : String
  name : String
  command : String
  args : List String
  env : Option (List (String × String))
  port : Option Nat
  isRunning : Bool
deriving DecidableEq, Repr

/-- Embedded from src/src/App.tsx lines 180-195 (loadConfig): each entry of
config.mcpServers becomes an MCPCommand with name = id and isRunning = false. -/
def loadedCommands (c : Config) : List MCPCommand :=
  c.mcpServers.map (fun kv =>
    { id := kv.1, name := kv.1, command := kv.2.command, args := kv.2.args,
      env := kv.2.env, port := kv.2.port, isRunning := false })

/-- Lookup in an association list keyed by strings. -/
def assocFind {α : Type} : List (String × α) → String → Option α
  | [], _ => none
  | (k, v) :: rest, id => if k = id then some v else assocFind rest id

/-- Replace the value stored under a key, when present. -/
def assocSet {α : Type} : List (String × α) → String → α → List (String × α)
  | [], _, _ => []
  | (k, v) :: rest, id, w => if k = id then (k, w) :: rest else (k, v) :: assocSet rest id w

/-- Delete every entry stored under a key. -/
def assocErase {α : Type} : List (String × α) → String → List (String × α)
  | [], _ => []
  | (k, v) :: rest, id => if k = id then assocErase rest id else (k, v) :: assocErase rest id

/-- The structured error taxonomy of the backend contract (spec §7). -/
inductive SupError where
  | notFound
  | conflict
  | precondition
  | alreadyRunning
  | notRunning
  | configError
deriving DecidableEq, Repr

/-- Modelled from the spec: Registry.add (§4.1), the Registry living in the
missing Tauri backend — fails with ConflictError when the name already exists,
otherwise appends the entry and rewrites the whole store. -/
def addServer (cfg : Config) (name : String) (s : MCPServerConfig) : Except SupError Config :=
  match assocFind cfg.mcpServers name with
  | some _ => .error .conflict
  | none => .ok ⟨cfg.mcpServers ++ [(name, s)]⟩

/-- Modelled from the spec: Registry.remove at the configuration level (§4.1),
the Registry living in the missing Tauri backend — NotFoundError when the id is
absent, otherwise deletes the entry and rewrites the whole store. -/
def removeServer (cfg : Config) (name : String) : Except SupError Config :=
  match assocFind cfg.mcpServers name with
  | none => .error .notFound
  | some _ => .ok ⟨assocErase cfg.mcpServers name⟩

/-- Embedded from src/src/App.tsx lines 225-256 (handleEditCommand): edit is
guarded by the current status, then performed as remove_server on the original
id followed by add_server with the new form data — two separate backend calls,
not a transaction.  The second component is the configuration persisted on
disk after the sequence (each Registry call rewrites the store, spec §4.1). -/
def handleEditCommand (cfg : Config) (currentStatus : CommandStatus)
    (originalId : String) (newName : String) (s : MCPServerConfig) :
    Except SupError Config × Config :=
  if editRemoveAllowed currentStatus then
    match removeServer cfg originalId with
    | .error e => (.error e, cfg)
    | .ok cfg1 =>
      match addServer cfg1 newName s with
      | .error e => (.error e, cfg1)
      | .ok cfg2 => (.ok cfg2, cfg2)
  else (.error .precondition, cfg)

/-- One supervised command: its spec, current status, platform process id when
known, and retained output lines.  Modelled from the spec (§2, §3). -/
structure CommandCell where
  spec : MCPServerConfig
  status : CommandStatus
  processId : Option Nat
  output : List String
deriving DecidableEq, Repr

/-- Modelled from the spec: the Process Supervisor state (§2), one cell per
registered command id plus the output retention bound (§4.4). -/
structure Supervisor where
  cells : List (String × CommandCell)
  outputBound : Nat
deriving DecidableEq, Repr

/-- Asynchronous events a single command's lifecycle reacts to. -/
inductive SupEvent where
  | startReq
  | spawnOk (pid : Nat)
  | spawnFail (msg : String)
  | stopReq
  | killReq
  | exited (code : Option Int)
  | outputLine (line : String)
deriving DecidableEq, Repr

/-- Whether an event is a process output line. -/
def isOutputLine : SupEvent → Bool
  | .outputLine _ => true
  | _ => false

/-- Modelled from the spec: the per-command status transition relation (§3,
§4.2), the Process Controller and Status Tracker being in the missing Tauri
backend.  none means the transition is not enabled from that status. -/
def next : CommandStatus → SupEvent → Option CommandStatus
  | .Idle, .startReq => some .Starting
  | .Finished _ _, .startReq => some .Starting
  | .Error _, .startReq => some .Starting
  | .Starting, .spawnOk _ => some .Running
  | .Starting, .spawnFail m => some (.Error m)
  | .Running, .stopReq => some .Stopping
  | .Running, .killReq => some .Killing
  | .Stopping, .killReq => some .Killing
  | .Running, .exited c => some (.Finished c (c == some 0))
  | .Stopping, .exited c => some (.Finished c (c == some 0))
  | .Killing, .exited c => some (.Finished c false)
  | _, _ => none

/-- Modelled from the spec: one bounded append to the Output Buffer (§4.4) —
push the new line, then evict the oldest lines past the retention bound. -/
def appendLine (bound : Nat) (buf : List String) (line : String) : List String :=
  let b := buf ++ [line]
  if bound < b.length then b.drop (b.length - bound) else b

/-- Modelled from the spec: apply one asynchronous event for command id to the
Supervisor (§2, §4).  Status events go through the transition relation and are
ignored when not enabled; output lines append to the bounded buffer while the
process is alive; an accepted start resets the output buffer and process id
(§3: output is cleared when the command is restarted); spawn confirmation
records the platform process id. -/
def applyEvent (sup : Supervisor) (id : String) (e : SupEvent) : Supervisor :=
  match assocFind sup.cells id with
  | none => sup
  | some cell =>
    match e with
    | .outputLine line =>
      if isAlive cell.status then
        ⟨assocSet sup.cells id
          { cell with output := appendLine sup.outputBound cell.output line },
         sup.outputBound⟩
      else sup
    | .startReq =>
      match next cell.status .startReq with
      | none => sup
      | some s =>
        ⟨assocSet sup.cells id { cell with status := s, output := [], processId := none },
         sup.outputBound⟩
    | .spawnOk pid =>
      match next cell.status (.spawnOk pid) with
      | none => sup
      | some s =>
        ⟨assocSet sup.cells id { cell with status := s, processId := some pid },
         sup.outputBound⟩
    | e' =>
      match next cell.status e' with
      | none => sup
      | some s => ⟨assocSet sup.cells id { cell with status := s }, sup.outputBound⟩

/-- Modelled from the spec: getStatus (§4.3), a pure read of the in-memory
state; NotFoundError for ids absent from the Registry. -/
def getStatus (sup : Supervisor) (id : String) : Except SupError CommandStatus :=
  match assocFind sup.cells id with
  | none => .error .notFound
  | some cell => .ok cell.status

/-- Modelled from the spec: getOutput (§4.4), the full retained sequence of
lines; NotFoundError for ids absent from the Registry. -/
def getOutput (sup : Supervisor) (id : String) : Except SupError (List String) :=
  match assocFind sup.cells id with
  | none => .error .notFound
  | some cell => .ok cell.output

/-- Modelled from the spec: start_command (§4.2): NotFound when the id is
unknown, a distinguished AlreadyRunning error when the status is Running, a
PreconditionError from the exclusive transition states, and otherwise a
synchronous transition to Starting with the output buffer reset. -/
def startCommand (sup : Supervisor) (id : String) : Except SupError Supervisor :=
  match assocFind sup.cells id with
  | none => .error .notFound
  | some cell =>
    match cell.status with
    | .Running => .error .alreadyRunning
    | .Starting => .error .precondition
    | .Stopping => .error .precondition
    | .Killing => .error .precondition
    | _ =>
      .ok ⟨assocSet sup.cells id
            { cell with status := .Starting, output := [], processId := none },
          sup.outputBound⟩

/-- Modelled from the spec: stop_command (§4.2): precondition Running, then a
synchronous transition to Stopping. -/
def stopCommand (sup : Supervisor) (id : String) : Except SupError Supervisor :=
  match assocFind sup.cells id with
  | none => .error .notFound
  | some cell =>
    match cell.status with
    | .Running => .ok ⟨assocSet sup.cells id { cell with status := .Stopping }, sup.outputBound⟩
    | _ => .error .notRunning

/-- Modelled from the spec: force_kill_command (§4.2): precondition Running or
Stopping (the escalation path); rejected with an explicit NotRunningError from
every other status, never silently ignored. -/
def forceKillCommand (sup : Supervisor) (id : String) : Except SupError Supervisor :=
  match assocFind sup.cells id with
  | none => .error .notFound
  | some cell =>
    match cell.status with
    | .Running => .ok ⟨assocSet sup.cells id { cell with status := .Killing }, sup.outputBound⟩
    | .Stopping => .ok ⟨assocSet sup.cells id { cell with status := .Killing }, sup.outputBound⟩
    | _ => .error .notRunning

/-- Modelled from the spec: remove at the supervisor level (§4.1, §4.5):
NotFound when the id is absent, PreconditionError when the status is not
terminal (Idle, Finished, Error), otherwise the cell is deleted. -/
def removeCommand (sup : Supervisor) (id : String) : Except SupError Supervisor :=
  match assocFind sup.cells id with
  | none => .error .notFound
  | some cell =>
    if isTerminal cell.status then .ok ⟨assocErase sup.cells id, sup.outputBound⟩
    else .error .precondition

/-- Modelled from the spec: the OS spawn invocation derived from a command
spec (§4.2): the executable, the args and the env are what is handed to the
OS; the informational port is not part of it. -/
def spawnInvocation (s : MCPServerConfig) : String × List String × List (String × String) :=
  (s.command, s.args, s.env.getD [])

/-- Character-level splitter with an accumulator for the token being built,
mirroring JavaScript String.split with a one-character separator: every
occurrence of the separator ends the current token (possibly empty), and the
final token is what remains. -/
def splitAuxChars : List Char → List Char → List (List Char)
  | [], acc => [acc.reverse]
  | c :: cs, acc => if c = ' ' then acc.reverse :: splitAuxChars cs [] else splitAuxChars cs (c :: acc)

/-- JavaScript semantics of input.split with a single space separator, as used
by the add/edit command form. -/
def jsSplitOnSpace (s : String) : List String :=
  (splitAuxChars s.toList []).map (fun cs => String.mk cs)

/-- Embedded from src/unnamed/part_001 line 44 and src/unnamed/part_002 line 30
(handleSubmit): the submitted args are the raw input split on each single space
character, with tokens of length zero dropped. -/
def submittedArgs (input : String) : List String :=
  (jsSplitOnSpace input).filter (fun a => 0 < a.length)

/-- Embedded from src/src/types/mcp.ts lines 22-27 (AddMCPCommand): the data
submitted by the add/edit form. -/
structure AddMCPCommandData where
  name : String
  command : String
  args : List String
  env : List (String × String)
  port : Option Nat
deriving DecidableEq, Repr

/-- Embedded from src/unnamed/part_001 lines 38-48 (handleSubmit commandData):
the submitted command data built from the form fields; the port field only
lands in the advisory port slot. -/
def handleSubmitData (name command argsInput : String)
    (envVars : List (String × String)) (port : Option Nat) : AddMCPCommandData :=
  ⟨name, command, submittedArgs argsInput, envVars, port⟩

/-- Embedded from src/src/App.tsx lines 209-215 (handleAddCommand): the
add_server payload built from the submitted form data. -/
def addServerPayload (d : AddMCPCommandData) : MCPServerConfig :=
  ⟨d.command, d.args, some d.env, d.port⟩

/-- A small JSON universe for stating the persisted configuration shape. -/
inductive Json where
  | str (s : String)
  | num (n : Int)
  | arr (elems : List Json)
  | obj (fields : List (String × Json))

/-- The field names of a JSON object (empty for the other constructors). -/
def jsonKeys : Json → List String
  | .obj fields => fields.map Prod.fst
  | _ => []

/-- Modelled from the spec: the persisted JSON for one server entry (§6):
command and args always present, env and port present exactly when they are
configured. -/
def serverToJson (s : MCPServerConfig) : Json :=
  .obj ([("command", .str s.command), ("args", .arr (s.args.map .str))] ++
    (match s.env with
     | none => []
     | some kvs => [("env", .obj (kvs.map (fun kv => (kv.1, .str kv.2))))]) ++
    (match s.port with
     | none => []
     | some p => [("port", .num (Int.ofNat p))]))

/-- Modelled from the spec: save_config persists the whole document as a single
top-level object with exactly the field mcpServers (§6), matching the Config
interface in src/src/types/mcp.ts. -/
def configToJson (c : Config) : Json :=
  .obj [("mcpServers", .obj (c.mcpServers.map (fun kv => (kv.1, serverToJson kv.2))))]

/-- Parse a JSON array of strings, rejecting anything else. -/
def parseStrList : List Json → Option (List String)
  | [] => some []
  | .str s :: rest => (parseStrList rest).map (fun l => s :: l)
  | _ => none

/-- Parse the fields of an env object, all values strings. -/
def parseEnvFields : List (String × Json) → Option (List (String × String))
  | [] => some []
  | (k, .str v) :: rest => (parseEnvFields rest).map (fun l => (k, v) :: l)
  | _ => none

/-- Parse the optional env and port fields that may follow command and args. -/
def parseOptEnvPort : List (String × Json) → Option (Option (List (String × String)) × Option Nat)
  | [] => some (none, none)
  | [("env", .obj kvs)] => (parseEnvFields kvs).map (fun e => (some e, none))
  | [("port", .num (Int.ofNat p))] => some (none, some p)
  | [("env", .obj kvs), ("port", .num (Int.ofNat p))] =>
      (parseEnvFields kvs).map (fun e => (some e, some p))
  | _ => none

/-- Parse one server entry of the persisted document shape. -/
def parseServer : Json → Option MCPServerConfig
  | .obj (("command", .str cmd) :: ("args", .arr argJs) :: rest) =>
    match parseStrList argJs, parseOptEnvPort rest with
    | some args, some (env, port) => some ⟨cmd, args, env, port⟩
    | _, _ => none
  | _ => none

/-- Parse the entries of the mcpServers object. -/
def parseServers : List (String × Json) → Option (List (String × MCPServerConfig))
  | [] => some []
  | (id, j) :: rest =>
    match parseServer j, parseServers rest with
    | some s, some l => some ((id, s) :: l)
    | _, _ => none

/-- Modelled from the spec: load_config accepts exactly the persisted document
shape (§6) — a single top-level mcpServers object of server entries. -/
def parseConfig : Json → Option Config
  | .obj [("mcpServers", .obj entries)] => (parseServers entries).map Config.mk
  | _ => none

/-- Helper predicate on statuses used to state the timer theorems. -/
def isRunningState : CommandStatus → Bool
  | .Running => true
  | _ => false

/-- Reachability along enabled transitions that never enters Running. -/
inductive ReachesAvoidingRunning : CommandStatus → CommandStatus → Prop where
  | refl (s : CommandStatus) : ReachesAvoidingRunning s s
  | step {a b c : CommandStatus} (e : SupEvent) :
      next a e = some b → b ≠ .Running →
      ReachesAvoidingRunning b c → ReachesAvoidingRunning a c

theorem assocFind_assocSet_self {α : Type} {l : List (String × α)} {id : String} {v : α}
    (w : α) (h : assocFind l id = some v) : assocFind (assocSet l id w) id = some w := by
  induction l with
  | nil => simp [assocFind] at h
  | cons p rest ih =>
    obtain ⟨k, x⟩ := p
    by_cases hk : k = id
    · subst hk
      simp [assocFind, assocSet]
    · simp only [assocFind, assocSet, if_neg hk] at h ⊢
      exact ih h

theorem assocFind_assocSet_ne {α : Type} {l : List (String × α)} {id k : String}
    (w : α) (h : k ≠ id) : assocFind (assocSet l id w) k = assocFind l k := by
  induction l with
  | nil => rfl
  | cons p rest ih =>
    obtain ⟨k0, x⟩ := p
    by_cases hk : k0 = id
    · subst hk
      have hne : ¬ k0 = k := fun hkk => h (hkk ▸ rfl)
      simp [assocSet, assocFind, hne]
    · simp only [assocSet, if_neg hk, assocFind]
      by_cases hkk : k0 = k
      · simp [hkk]
      · simp [hkk, ih]

theorem assocFind_assocErase_self {α : Type} (l : List (String × α)) (id : String) :
    assocFind (assocErase l id) id = none := by
  induction l with
  | nil => rfl
  | cons p rest ih =>
    obtain ⟨k, x⟩ := p
    by_cases hk : k = id
    · simp [assocErase, hk, ih]
    · simp [assocErase, assocFind, hk, ih]

theorem splitAuxChars_all_space (l : List Char) (h : ∀ c ∈ l, c = ' ') :
    ∀ t ∈ splitAuxChars l [], t = [] := by
  induction l with
  | nil =>
    intro t ht
    simp [splitAuxChars] at ht
    simp [ht]
  | cons c cs ih =>
    intro t ht
    have hc : c = ' ' := h c (by simp)
    rw [splitAuxChars, if_pos hc] at ht
    rcases List.mem_cons.mp ht with h1 | h2
    · simpa using h1
    · exact ih (fun d hd => h d (List.mem_cons_of_mem c hd)) t h2

theorem splitAuxChars_no_space (l : List Char) :
    ∀ acc, (' ' ∉ acc) → ∀ t ∈ splitAuxChars l acc, ' ' ∉ t := by
  induction l with
  | nil =>
    intro acc hacc t ht
    simp [splitAuxChars] at ht
    subst ht
    simpa using hacc
  | cons c cs ih =>
    intro acc hacc t ht
    by_cases hc : c = ' '
    · rw [splitAuxChars, if_pos hc] at ht
      rcases List.mem_cons.mp ht with h1 | h2
      · subst h1
        simpa using hacc
      · exact ih [] (by simp) t h2
    · rw [splitAuxChars, if_neg hc] at ht
      refine ih (c :: acc) ?_ t ht
      intro hmem
      rcases List.mem_cons.mp hmem with h1 | h2
      · exact hc h1.symm
      · exact hacc h2

theorem reachesAvoidingRunning_inv {a b : CommandStatus}
    (h : ReachesAvoidingRunning a b)
    (ha : a = .Starting ∨ ∃ m, a = CommandStatus.Error m) :
    b = .Starting ∨ ∃ m, b = CommandStatus.Error m := by
  induction h with
  | refl s => exact ha
  | @step a0 b0 c0 e hnext hnr _ ih =>
    apply ih
    rcases ha with h1 | ⟨m, h1⟩ <;> subst h1
    · cases e <;> simp [next] at hnext
      · exact absurd hnext.symm hnr
      · exact Or.inr ⟨_, hnext.symm⟩
    · cases e <;> simp [next] at hnext
      exact Or.inl hnext.symm

theorem parseStrList_map (l : List String) : parseStrList (l.map Json.str) = some l := by
  induction l with
  | nil => rfl
  | cons s rest ih => simp [parseStrList, ih]

theorem parseEnvFields_map (kvs : List (String × String)) :
    parseEnvFields (kvs.map (fun kv => (kv.1, Json.str kv.2))) = some kvs := by
  induction kvs with
  | nil => rfl
  | cons kv rest ih =>
    obtain ⟨k, v⟩ := kv
    simp [parseEnvFields, ih]

theorem parseOptEnvPort_parts (env : Option (List (String × String))) (port : Option Nat) :
    parseOptEnvPort
      ((match env with
        | none => []
        | some kvs => [("env", Json.obj (kvs.map (fun kv => (kv.1, Json.str kv.2))))]) ++
       (match port with
        | none => []
        | some p => [("port", Json.num (Int.ofNat p))])) = some (env, port) := by
  cases env with
  | none =>
    cases port with
    | none => rfl
    | some p => rfl
  | some kvs =>
    cases port with
    | none =>
      show Option.map (fun e => (some e, none))
        (parseEnvFields (kvs.map (fun kv => (kv.1, Json.str kv.2)))) = some (some kvs, none)
      rw [parseEnvFields_map]
      rfl
    | some p =>
      show Option.map (fun e => (some e, some p))
        (parseEnvFields (kvs.map (fun kv => (kv.1, Json.str kv.2)))) = some (some kvs, some p)
      rw [parseEnvFields_map]
      rfl

theorem parseServer_serverToJson (s : MCPServerConfig) :
    parseServer (serverToJson s) = some s := by
  obtain ⟨cmd, args, env, port⟩ := s
  simp only [serverToJson, List.cons_append, List.nil_append, parseServer]
  rw [parseStrList_map]
  rw [parseOptEnvPort_parts]

theorem parseServers_map (l : List (String × MCPServerConfig)) :
    parseServers (l.map (fun kv => (kv.1, serverToJson kv.2))) = some l := by
  induction l with
  | nil => rfl
  | cons kv rest ih =>
    obtain ⟨id, s⟩ := kv
    simp [parseServers, parseServer_serverToJson, ih]

/-- A concrete command spec used to instantiate the supervisor theorems. -/
def demoSpec : MCPServerConfig := ⟨"python3", ["-m", "http.server", "8000"], none, none⟩

/-- A concrete one-cell supervisor in a chosen status. -/
def demoCell (s : CommandStatus) : CommandCell := ⟨demoSpec, s, none, []⟩

/-- A concrete supervisor holding the command web in a chosen status. -/
def demoSup (s : CommandStatus) : Supervisor := ⟨[("web", demoCell s)], 1000⟩

/-- C1: for every registered command id, start succeeds exactly when the
current status is Idle, Finished or Error; start on a Running command fails
with the distinguished AlreadyRunning error, and no spawn event is enabled for
a Running command (no second OS process); start from the exclusive transition
states Starting, Stopping, Killing is rejected with a PreconditionError, so
after one start succeeds a second start on the same id is rejected; the UI
toggle (src/src/App.tsx lines 282-296) dispatches start_command exactly from
the terminal statuses. -/
theorem c1_start_preconditions :
    (∀ sup id cell, assocFind sup.cells id = some cell →
       ((∃ sup2, startCommand sup id = .ok sup2) ↔ isTerminal cell.status = true)) ∧
    (∀ sup id cell, assocFind sup.cells id = some cell → cell.status = .Running →
       startCommand sup id = .error .alreadyRunning) ∧
    (∀ pid, next .Running (.spawnOk pid) = none) ∧
    (∀ sup id cell, assocFind sup.cells id = some cell → isTransitional cell.status = true →
       startCommand sup id = .error .precondition) ∧
    (∀ sup sup2 id, startCommand sup id = .ok sup2 →
       startCommand sup2 id = .error .precondition) ∧
    (∀ s, toggleTarget s = some .startCmd ↔ isTerminal s = true) := by
  refine ⟨?_, ?_, fun pid => rfl, ?_, ?_, ?_⟩
  · intro sup id cell h
    obtain ⟨cs, st, pid, out⟩ := cell
    cases st <;> simp [startCommand, h, isTerminal]
  · intro sup id cell h hrun
    simp [startCommand, h, hrun]
  · intro sup id cell h ht
    obtain ⟨cs, st, pid, out⟩ := cell
    cases st <;> simp_all [startCommand, isTransitional]
  · intro sup sup2 id h
    unfold startCommand at h
    cases hfind : assocFind sup.cells id with
    | none => rw [hfind] at h; exact absurd h (by simp)
    | some cell =>
      rw [hfind] at h
      obtain ⟨cs, st, pid, out⟩ := cell
      cases st <;> simp only [Except.ok.injEq] at h <;> try exact absurd h (by simp)
      all_goals
        subst h
        simp [startCommand, assocFind_assocSet_self _ hfind]
  · intro s
    cases s <;> simp [toggleTarget, isTerminal]

/-- C1 witness: on the concrete supervisor, start on a Running command is
rejected with the AlreadyRunning error and start on a Stopping command with a
PreconditionError. -/
theorem c1_start_preconditions_witness :
    startCommand (demoSup .Running) "web" = .error .alreadyRunning ∧
    startCommand (demoSup .Stopping) "web" = .error .precondition := by
  constructor
  · exact c1_start_preconditions.2.1 (demoSup .Running) "web" (demoCell .Running)
      (by decide) rfl
  · exact c1_start_preconditions.2.2.2.1 (demoSup .Stopping) "web" (demoCell .Stopping)
      (by decide) (by decide)

/-- C2: the per-attempt transition relation is monotonic — from a terminal
status the only successor is Starting, Running to Killing is legal, the only
way into Running is from Starting, the status right after an accepted start is
Starting, and no transition path from Starting can reach Finished while
avoiding Running. -/
theorem c2_transition_monotonic :
    (∀ s e s2, next s e = some s2 → isTerminal s = true → s2 = .Starting) ∧
    (next .Running .killReq = some .Killing) ∧
    (∀ s e, next s e = some .Running → s = .Starting) ∧
    (∀ sup sup2 id, startCommand sup id = .ok sup2 → getStatus sup2 id = .ok .Starting) ∧
    (∀ code success, ¬ ReachesAvoidingRunning .Starting (.Finished code success)) := by
  refine ⟨?_, rfl, ?_, ?_, ?_⟩
  · intro s e s2 h ht
    cases s <;> cases e <;> simp_all [next, isTerminal]
  · intro s e h
    cases s <;> cases e <;> simp_all [next]
  · intro sup sup2 id h
    unfold startCommand at h
    cases hfind : assocFind sup.cells id with
    | none => rw [hfind] at h; exact absurd h (by simp)
    | some cell =>
      rw [hfind] at h
      obtain ⟨cs, st, pid, out⟩ := cell
      cases st <;> simp only [Except.ok.injEq] at h <;> try exact absurd h (by simp)
      all_goals
        subst h
        simp [getStatus, assocFind_assocSet_self _ hfind]
  · intro code success h
    have := reachesAvoidingRunning_inv h (Or.inl rfl)
    rcases this with h1 | ⟨m, h1⟩ <;> simp at h1

/-- C2 witness: starting the concrete Idle supervisor leaves the command in
status Starting. -/
theorem c2_transition_monotonic_witness :
    getStatus ⟨[("web", ⟨demoSpec, .Starting, none, []⟩)], 1000⟩ "web" = .ok .Starting := by
  exact c2_transition_monotonic.2.2.2.1 (demoSup .Idle)
    ⟨[("web", ⟨demoSpec, .Starting, none, []⟩)], 1000⟩ "web" rfl

/-- C3: forceKill succeeds exactly when the status is Running or Stopping; on
a command in Idle, Finished or Error it is rejected with the explicit
NotRunningError, never silently ignored; and the UI guard in handleForceKill
(src/src/App.tsx lines 381-387) lets the invoke through exactly for Running
and Stopping. -/
theorem c3_forcekill_precondition :
    (∀ sup id cell, assocFind sup.cells id = some cell →
       ((∃ sup2, forceKillCommand sup id = .ok sup2) ↔
         (cell.status = .Running ∨ cell.status = .Stopping))) ∧
    (∀ sup id cell, assocFind sup.cells id = some cell → isTerminal cell.status = true →
       forceKillCommand sup id = .error .notRunning) ∧
    (∀ s, forceKillGuardAllows (some s) = true ↔ (s = .Running ∨ s = .Stopping)) := by
  refine ⟨?_, ?_, ?_⟩
  · intro sup id cell h
    obtain ⟨cs, st, pid, out⟩ := cell
    cases st <;> simp [forceKillCommand, h]
  · intro sup id cell h ht
    obtain ⟨cs, st, pid, out⟩ := cell
    cases st <;> simp_all [forceKillCommand, isTerminal]
  · intro s
    cases s <;> simp [forceKillGuardAllows]

/-- C3 witness: on the concrete supervisor, a force kill of an Idle command is
rejected with NotRunningError, while a Stopping command can be force killed. -/
theorem c3_forcekill_precondition_witness :
    forceKillCommand (demoSup .Idle) "web" = .error .notRunning ∧
    (∃ sup2, forceKillCommand (demoSup .Stopping) "web" = .ok sup2) := by
  constructor
  · exact c3_forcekill_precondition.2.1 (demoSup .Idle) "web" (demoCell .Idle)
      (by decide) (by decide)
  · exact (c3_forcekill_precondition.1 (demoSup .Stopping) "web" (demoCell .Stopping)
      (by decide)).mpr (Or.inr rfl)

/-- C4: remove on a command whose status is not terminal fails with a
PreconditionError; on a terminal status it succeeds and afterwards both
getStatus and getOutput for that id return NotFoundError; the UI edit/remove
guard (src/src/App.tsx lines 230-233 and 421-425) coincides with the terminal
statuses. -/
theorem c4_remove_preconditions :
    (∀ sup id cell, assocFind sup.cells id = some cell → isTerminal cell.status = false →
       removeCommand sup id = .error .precondition) ∧
    (∀ sup id cell, assocFind sup.cells id = some cell → isTerminal cell.status = true →
       removeCommand sup id = .ok ⟨assocErase sup.cells id, sup.outputBound⟩ ∧
       getStatus ⟨assocErase sup.cells id, sup.outputBound⟩ id = .error .notFound ∧
       getOutput ⟨assocErase sup.cells id, sup.outputBound⟩ id = .error .notFound) ∧
    (∀ s, editRemoveAllowed s = isTerminal s) := by
  refine ⟨?_, ?_, ?_⟩
  · intro sup id cell h ht
    simp [removeCommand, h, ht]
  · intro sup id cell h ht
    refine ⟨by simp [removeCommand, h, ht], ?_, ?_⟩
    · simp [getStatus, assocFind_assocErase_self]
    · simp [getOutput, assocFind_assocErase_self]
  · intro s
    cases s <;> rfl

/-- C4 witness: removing the concrete Running command is rejected; removing
the concrete Idle command succeeds, after which its status and output queries
report NotFoundError. -/
theorem c4_remove_preconditions_witness :
    removeCommand (demoSup .Running) "web" = .error .precondition ∧
    removeCommand (demoSup .Idle) "web" = .ok ⟨[], 1000⟩ ∧
    getStatus ⟨[], 1000⟩ "web" = .error .notFound ∧
    getOutput ⟨[], 1000⟩ "web" = .error .notFound := by
  refine ⟨?_, ?_⟩
  · exact c4_remove_preconditions.1 (demoSup .Running) "web" (demoCell .Running)
      (by decide) (by decide)
  · exact c4_remove_preconditions.2.1 (demoSup .Idle) "web" (demoCell .Idle)
      (by decide) (by decide)

/-- C5: output retrieval is idempotent and monotone while the process is
alive — a non-output event for the same id leaves the retrieved sequence
unchanged, an event for a different id leaves it unchanged, the bounded append
never shrinks the buffer (eviction at the retention bound keeps the length
constant) and keeps it within the bound, and an output line while alive makes
the retrieved sequence the bounded append of the previous one. -/
theorem c5_output_monotone :
    (∀ sup id cell e, assocFind sup.cells id = some cell → isAlive cell.status = true →
       isOutputLine e = false →
       getOutput (applyEvent sup id e) id = getOutput sup id) ∧
    (∀ sup id eid e, id ≠ eid →
       getOutput (applyEvent sup eid e) id = getOutput sup id) ∧
    (∀ bound buf line, buf.length ≤ bound →
       buf.length ≤ (appendLine bound buf line).length ∧
       (appendLine bound buf line).length ≤ bound) ∧
    (∀ sup id cell line, assocFind sup.cells id = some cell → isAlive cell.status = true →
       getOutput (applyEvent sup id (.outputLine line)) id =
         .ok (appendLine sup.outputBound cell.output line)) := by
  refine ⟨?_, ?_, ?_, ?_⟩
  · intro sup id cell e h halive he
    obtain ⟨cs, st, pid, out⟩ := cell
    cases e <;> cases st <;>
      simp_all [applyEvent, getOutput, next, isAlive, isOutputLine, assocFind_assocSet_self]
  · intro sup id eid e hne
    unfold applyEvent
    cases hfind : assocFind sup.cells eid with
    | none => rfl
    | some cell =>
      obtain ⟨cs, st, pid, out⟩ := cell
      cases e <;> cases st <;>
        simp_all [getOutput, next, isAlive, assocFind_assocSet_ne _ hne]
  · intro bound buf line hle
    have h1 : (buf ++ [line]).length = buf.length + 1 := by simp
    simp only [appendLine]
    by_cases hb : bound < (buf ++ [line]).length
    · rw [if_pos hb, List.length_drop]
      omega
    · rw [if_neg hb]
      omega
  · intro sup id cell line h halive
    simp [applyEvent, h, halive, getOutput, assocFind_assocSet_self]

/-- C5 witness: on the concrete Running supervisor, a status event leaves the
retrieved output unchanged, and an output line within the bound appends. -/
theorem c5_output_monotone_witness :
    getOutput (applyEvent (demoSup .Running) "web" .stopReq) "web" =
      getOutput (demoSup .Running) "web" ∧
    getOutput (applyEvent (demoSup .Running) "web" (.outputLine "hello")) "web" =
      .ok ["hello"] := by
  constructor
  · exact c5_output_monotone.1 (demoSup .Running) "web" (demoCell .Running) .stopReq
      (by decide) (by decide) (by decide)
  · exact c5_output_monotone.2.2.2 (demoSup .Running) "web" (demoCell .Running) "hello"
      (by decide) (by decide)

/-- C6 counterexample: when the grace-period timer fires and the command is
still Stopping, the client shows the force-kill prompt but does not invoke
forceKill when the user declines — so the claim that the caller invokes
forceKill whenever the status is still Stopping at the timer is false at the
concrete input (fresh status Stopping, user confirmation false). -/
theorem c6_grace_escalation_counterexample :
    (stopTimerFired .Stopping false).promptShown = true ∧
    (stopTimerFired .Stopping false).forceKillInvoked = false := by
  exact ⟨rfl, rfl⟩

/-- C6 (amended): graceful stop has no controller-level timeout; the client
starts the 5000 ms grace timer exactly when the toggle issued stop_command
(status Running); when the timer fires with the command still Stopping the
escalation prompt is always shown, and forceKill is invoked exactly when the
command is still Stopping and the user confirmed the prompt. -/
theorem c6_grace_escalation :
    GRACEFUL_STOP_TIMEOUT = 5000 ∧
    (∀ s, stopTimerStarted s = isRunningState s) ∧
    (∀ fresh confirmed, (stopTimerFired fresh confirmed).promptShown = isStopping fresh) ∧
    (∀ fresh confirmed,
       (stopTimerFired fresh confirmed).forceKillInvoked = (isStopping fresh && confirmed)) := by
  refine ⟨rfl, ?_, ?_, ?_⟩
  · intro s
    cases s <;> rfl
  · intro fresh confirmed
    cases fresh <;> rfl
  · intro fresh confirmed
    cases fresh <;> cases confirmed <;> rfl

/-- A concrete server spec for the edit scenario. -/
def specA : MCPServerConfig := ⟨"node", ["server.js"], none, none⟩

/-- A second concrete server spec for the edit scenario. -/
def specB : MCPServerConfig := ⟨"python3", ["-m", "http.server"], none, none⟩

/-- The new spec submitted by the edit form in the scenario. -/
def specNew : MCPServerConfig := ⟨"deno", ["run", "main.ts"], none, some 8080⟩

/-- A configuration holding two servers a and b. -/
def cfgAB : Config := ⟨[("a", specA), ("b", specB)]⟩

/-- C7: edit is remove-then-add and not atomic — in the concrete execution
that renames server a to the already-taken name b, remove_server succeeds and
the subsequent add_server fails with a ConflictError, and the persisted
configuration afterwards contains neither the original spec under a nor the
new spec: the original CommandSpec is lost. -/
theorem c7_edit_not_atomic :
    (handleEditCommand cfgAB .Idle "a" "b" specNew).1 = .error .conflict ∧
    removeServer cfgAB "a" = .ok ⟨[("b", specB)]⟩ ∧
    (handleEditCommand cfgAB .Idle "a" "b" specNew).2 = ⟨[("b", specB)]⟩ ∧
    assocFind (handleEditCommand cfgAB .Idle "a" "b" specNew).2.mcpServers "a" = none ∧
    specA ∉ ((handleEditCommand cfgAB .Idle "a" "b" specNew).2.mcpServers.map Prod.snd) ∧
    specNew ∉ ((handleEditCommand cfgAB .Idle "a" "b" specNew).2.mcpServers.map Prod.snd) := by
  refine ⟨rfl, rfl, rfl, rfl, by decide, by decide⟩

/-- C8: the persisted configuration document has exactly the shape of a single
top-level mcpServers object mapping each id to an entry with mandatory command
and args and with env and port present exactly when configured; parsing the
persisted document recovers the configuration exactly; and the client's
loadConfig consumes precisely the ids of the mcpServers map. -/
theorem c8_config_document_shape :
    (∀ c, jsonKeys (configToJson c) = ["mcpServers"]) ∧
    (∀ c, parseConfig (configToJson c) = some c) ∧
    (∀ s, "command" ∈ jsonKeys (serverToJson s) ∧ "args" ∈ jsonKeys (serverToJson s) ∧
       ("env" ∈ jsonKeys (serverToJson s) ↔ s.env.isSome = true) ∧
       ("port" ∈ jsonKeys (serverToJson s) ↔ s.port.isSome = true) ∧
       ∀ k ∈ jsonKeys (serverToJson s), k ∈ ["command", "args", "env", "port"]) ∧
    (∀ c, (loadedCommands c).map (fun m => m.id) = c.mcpServers.map Prod.fst) := by
  refine ⟨fun c => rfl, ?_, ?_, ?_⟩
  · intro c
    simp only [configToJson, parseConfig, parseServers_map, Option.map_some]
    rfl
  · intro s
    obtain ⟨cmd, args, env, port⟩ := s
    cases env <;> cases port <;> simp [serverToJson, jsonKeys]
  · intro c
    simp [loadedCommands]

/-- C9: the informational port is advisory and display-only — the OS spawn
invocation (executable, args, env) of a spec is unchanged by any change to the
port field, the spawn invocation of the add_server payload built from the form
does not depend on the port input, and the form's port input lands only in the
advisory port slot of the submitted data. -/
theorem c9_port_advisory :
    (∀ (s : MCPServerConfig) (p : Option Nat),
       spawnInvocation { s with port := p } = spawnInvocation s) ∧
    (∀ n c a e p1 p2,
       spawnInvocation (addServerPayload (handleSubmitData n c a e p1)) =
         spawnInvocation (addServerPayload (handleSubmitData n c a e p2))) ∧
    (∀ n c a e p, (handleSubmitData n c a e p).port = p ∧
       (handleSubmitData n c a e p).command = c ∧
       (handleSubmitData n c a e p).args = submittedArgs a ∧
       (handleSubmitData n c a e p).env = e) := by
  exact ⟨fun s p => rfl, fun n c a e p1 p2 => rfl, fun n c a e p => ⟨rfl, rfl, rfl, rfl⟩⟩

/-- C10 counterexample: the input consisting of a single tab character is all
whitespace, yet the submitted args list is the nonempty list holding that tab,
because the form splits only on the space character — so the claim that an
all-whitespace input yields an empty args list is false at this input. -/
theorem c10_args_counterexample :
    ("\t".toList.all (fun c => c.isWhitespace) = true) ∧
    submittedArgs "\t" = ["\t"] ∧
    submittedArgs "\t" ≠ [] := by
  refine ⟨by decide, by decide, by decide⟩

/-- C10 (amended): the submitted args are the input split on single space
characters with empty tokens removed — args never contains an empty string
regardless of leading, trailing or repeated spaces, no surviving token
contains a space, and an input consisting only of space characters yields an
empty args list (other whitespace characters are not separators and survive
inside tokens). -/
theorem c10_args_split :
    (∀ s, "" ∉ submittedArgs s) ∧
    (∀ s a, a ∈ submittedArgs s → ' ' ∉ a.toList) ∧
    (∀ s, (∀ c ∈ s.toList, c = ' ') → submittedArgs s = []) := by
  refine ⟨?_, ?_, ?_⟩
  · intro s hmem
    have h2 := (List.mem_filter.mp hmem).2
    simp at h2
  · intro s a hmem
    have h1 := (List.mem_filter.mp hmem).1
    rcases List.mem_map.mp h1 with ⟨t, ht, rfl⟩
    have hns := splitAuxChars_no_space s.toList [] (by simp) t ht
    intro hsp
    exact hns (by simpa using hsp)
  · intro s h
    unfold submittedArgs jsSplitOnSpace
    rw [List.filter_eq_nil_iff]
    intro a ha
    rcases List.mem_map.mp ha with ⟨t, ht, rfl⟩
    have := splitAuxChars_all_space s.toList h t ht
    subst this
    decide

/-- C8 witness: the shape facts instantiated on the concrete configuration of
the scenario — every key of the entry for specNew is among the four allowed
field names, and the persisted document for cfgAB parses back to cfgAB. -/
theorem c8_config_document_shape_witness :
    "port" ∈ jsonKeys (serverToJson specNew) ∧
    parseConfig (configToJson cfgAB) = some cfgAB := by
  constructor
  · exact ((c8_config_document_shape.2.2.1 specNew).2.2.2.1).mpr (by decide)
  · exact c8_config_document_shape.2.1 cfgAB

/-- C10 witness: the amended split facts instantiated at concrete inputs — a
doubly spaced input keeps no empty token, a surviving token holds no space,
and an all-space input submits no args. -/
theorem c10_args_split_witness :
    "" ∉ submittedArgs "a  b" ∧
    ' ' ∉ "ab".toList ∧
    submittedArgs "   " = [] := by
  refine ⟨c10_args_split.1 "a  b", ?_, c10_args_split.2.2 "   " (by decide)⟩
  exact c10_args_split.2.1 "ab cd" "ab" (by decide)

end MCPRunner
